import Mathlib

/-!
Shallow embedding of the Klippy clipboard manager (`src/main.rs`) and proofs
about its history-management policy: deduplication, bounded retention with
pin exemption, preview truncation, watcher change detection and persistence.

Rust strings are modelled as Lean `String`s; where the Rust code works with
UTF-8 byte indices (`String::len`, byte-range slicing) we compute byte
lengths explicitly via `Char.utf8Size`.  A Rust slice `&s[..n]` panics when
`n` is not a character boundary, so the corresponding model returns
`Option`, with `none` standing for the panic.  Timestamps are modelled as
integers (the claims never inspect their value, only that they are carried
along and preserved).  Fallible clipboard I/O is modelled by passing the
read result (`Option String`) or write success (`Bool`) as a parameter.
-/

set_option linter.unusedVariables false

namespace Klippy

/-- One clipboard history entry, mirroring struct `ClipboardEntry`:
content, creation timestamp and pin flag. -/
structure ClipboardEntry where
  content : String
  timestamp : Int
  pinned : Bool
deriving DecidableEq

/-- The persistent-and-in-memory state of `ClipboardManager` that the core
operations touch: the entry list, the capacity, the last-seen clipboard
value used for change detection, and the transient status message (the
status timer is presentation glue and is not modelled). -/
structure ClipboardManager where
  entries : List ClipboardEntry
  max_entries : Nat
  current_clipboard : String
  status_message : Option String
deriving DecidableEq

/-- `ClipboardManager::default()`: empty history, capacity 50, empty
last-seen clipboard, no status message. -/
def defaultManager : ClipboardManager :=
  { entries := [], max_entries := 50, current_clipboard := "", status_message := none }

/-- UTF-8 byte length of a string, i.e. Rust `String::len`. -/
def byteLen (s : String) : Nat :=
  (s.data.map Char.utf8Size).sum

/-- Byte-based prefix extraction, i.e. the Rust slice `&s[..n]`:
returns the characters occupying exactly the first `n` bytes, or `none`
when byte `n` is not a character boundary or past the end (in Rust the
slice panics in those cases). -/
def takeBytes : List Char → Nat → Option (List Char)
  | _, 0 => some []
  | [], _ + 1 => none
  | c :: cs, n + 1 =>
    if c.utf8Size ≤ n + 1 then
      (takeBytes cs (n + 1 - c.utf8Size)).map (fun p => c :: p)
    else
      none

/-- `ClipboardEntry::preview`: if the content exceeds 50 bytes, the first
47 bytes followed by `"..."`, else the content unchanged.  `none` models
the panic of the byte slice `&content[..47]` at a non-boundary. -/
def preview (content : String) : Option String :=
  if byteLen content > 50 then
    (takeBytes content.data 47).map (fun p => String.mk p ++ "...")
  else
    some content

/-- Rust `char::is_whitespace`: the Unicode `White_Space` property. -/
def rustIsWhitespace (c : Char) : Bool :=
  (0x09 ≤ c.toNat && c.toNat ≤ 0x0D) || c.toNat == 0x20 || c.toNat == 0x85 ||
    c.toNat == 0xA0 || c.toNat == 0x1680 ||
    (0x2000 ≤ c.toNat && c.toNat ≤ 0x200A) || c.toNat == 0x2028 ||
    c.toNat == 0x2029 || c.toNat == 0x202F || c.toNat == 0x205F ||
    c.toNat == 0x3000

/-- Rust `str::trim`: the characters that remain after stripping leading
and trailing whitespace. -/
def rustTrim (s : String) : List Char :=
  ((s.data.dropWhile rustIsWhitespace).reverse.dropWhile rustIsWhitespace).reverse

/-- The index chosen by the eviction step of `add_entry`:
`entries.iter().enumerate().filter(|(_, e)| !e.pinned).map(|(i, _)| i).last()`,
i.e. the largest index (the least recently inserted position) holding a
non-pinned entry. -/
def lastUnpinnedIdx (es : List ClipboardEntry) : Option Nat :=
  (((es.enum).filter (fun p => !p.2.pinned)).map Prod.fst).getLast?

/-- The eviction loop of `add_entry`, fuelled: while the list is longer
than `max`, remove the entry at `lastUnpinnedIdx`; stop when within
capacity or when every entry is pinned.  A fuel of at least the list
length is enough, since every iteration removes one entry. -/
def evictFuel : Nat → Nat → List ClipboardEntry → List ClipboardEntry
  | 0, _, es => es
  | fuel + 1, max, es =>
    if es.length > max then
      match lastUnpinnedIdx es with
      | some idx => evictFuel fuel max (es.eraseIdx idx)
      | none => es
    else
      es

/-- The eviction loop of `add_entry`, run with sufficient fuel. -/
def evict (max : Nat) (es : List ClipboardEntry) : List ClipboardEntry :=
  evictFuel es.length max es

/-- `ClipboardManager::add_entry`: no-op when the content trims to empty
or exactly matches an existing entry; otherwise insert a fresh non-pinned
entry at the front and run the eviction loop.  `now` stands for
`Local::now()`. -/
def add_entry (now : Int) (content : String) (m : ClipboardManager) : ClipboardManager :=
  if (rustTrim content).isEmpty || m.entries.any (fun e => e.content == content) then
    m
  else
    { m with entries :=
        evict m.max_entries ({ content := content, timestamp := now, pinned := false } :: m.entries) }

/-- `ClipboardManager::check_clipboard`: `read` is the result of
`ctx.get_contents()` (`none` covers both a missing clipboard context and a
failed read).  On a successful read of a non-empty value differing from
`current_clipboard`, record it and call `add_entry`. -/
def check_clipboard (now : Int) (read : Option String) (m : ClipboardManager) :
    ClipboardManager :=
  match read with
  | none => m
  | some content =>
    if !content.isEmpty && content != m.current_clipboard then
      add_entry now content { m with current_clipboard := content }
    else
      m

/-- `ClipboardManager::copy_to_clipboard`: `ok` says whether the clipboard
context exists and `set_contents` succeeded.  On success record the copied
content in `current_clipboard` and report success; on failure only the
status message changes.  Returns the `bool` of the Rust function paired
with the new state. -/
def copy_to_clipboard (ok : Bool) (content : String) (m : ClipboardManager) :
    Bool × ClipboardManager :=
  if ok then
    (true, { m with current_clipboard := content, status_message := some "Copied to clipboard" })
  else
    (false, { m with status_message := some "Failed to copy to clipboard" })

/-- `ClipboardManager::remove_entry`: remove the entry at `index` when in
range, silently do nothing otherwise. -/
def remove_entry (index : Nat) (m : ClipboardManager) : ClipboardManager :=
  if index < m.entries.length then
    { m with entries := m.entries.eraseIdx index, status_message := some "Entry removed" }
  else
    m

/-- Flipping the pin flag of the entry at the given position, keeping every
other entry untouched (`self.entries[index].pinned = !self.entries[index].pinned`). -/
def togglePinList : List ClipboardEntry → Nat → List ClipboardEntry
  | [], _ => []
  | e :: es, 0 => { e with pinned := !e.pinned } :: es
  | e :: es, n + 1 => e :: togglePinList es n

/-- `ClipboardManager::toggle_pin`: flip the pin flag at `index` when in
range and report the new pin state, silently do nothing otherwise. -/
def toggle_pin (index : Nat) (m : ClipboardManager) : ClipboardManager :=
  if h : index < m.entries.length then
    { m with entries := togglePinList m.entries index,
             status_message :=
               some (if !(m.entries.get ⟨index, h⟩).pinned then "Entry pinned"
                     else "Entry unpinned") }
  else
    m

/-- The "Clear Unpinned" button: `self.entries.retain(|e| e.pinned)`. -/
def clear_unpinned (m : ClipboardManager) : ClipboardManager :=
  { m with entries := m.entries.filter (fun e => e.pinned),
           status_message := some "Cleared unpinned" }

/-- The settings-window save path: `self.max_entries = max_entries` where
the `DragValue` clamps the edited value to `10..=500`.  Does not touch the
entry list (no retroactive eviction). -/
def set_capacity (n : Nat) (m : ClipboardManager) : ClipboardManager :=
  { m with max_entries := min 500 (max 10 n), status_message := some "Settings saved" }

/-- The state invariant of the spec: the entry count is within capacity
whenever at least one non-pinned entry exists (equivalently: within
capacity, or every entry pinned). -/
def Inv (m : ClipboardManager) : Prop :=
  (∃ e ∈ m.entries, e.pinned = false) → m.entries.length ≤ m.max_entries

instance (m : ClipboardManager) : Decidable (Inv m) := by
  unfold Inv; infer_instance

/-- A JSON value, the target of `serde_json` serialization. -/
inductive Json where
  | jnull : Json
  | jbool : Bool → Json
  | jnum : Int → Json
  | jstr : String → Json
  | jarr : List Json → Json
  | jobj : List (String × Json) → Json

/-- Serialization of one entry, mirroring the derived `Serialize` for
`ClipboardEntry`: an object with the fields in declaration order. -/
def encodeEntry (e : ClipboardEntry) : Json :=
  .jobj [("content", .jstr e.content), ("timestamp", .jnum e.timestamp),
         ("pinned", .jbool e.pinned)]

/-- `ClipboardManager::save_data` / the derived `Serialize` for
`ClipboardManager`: the `#[serde(skip)]` fields are omitted, leaving the
entry array and the capacity. -/
def save_data (m : ClipboardManager) : Json :=
  .jobj [("entries", .jarr (m.entries.map encodeEntry)),
         ("max_entries", .jnum (Int.ofNat m.max_entries))]

/-- Deserialization of one entry (derived `Deserialize` for
`ClipboardEntry`): all three fields must be present with the right types. -/
def decodeEntry : Json → Option ClipboardEntry
  | .jobj fields =>
    match fields.lookup "content", fields.lookup "timestamp", fields.lookup "pinned" with
    | some (.jstr c), some (.jnum t), some (.jbool p) =>
      some { content := c, timestamp := t, pinned := p }
    | _, _, _ => none
  | _ => none

/-- Deserialization of the entry array, element by element, failing if any
element fails. -/
def decodeEntryList : List Json → Option (List ClipboardEntry)
  | [] => some []
  | j :: js =>
    match decodeEntry j, decodeEntryList js with
    | some e, some es => some (e :: es)
    | _, _ => none

/-- Deserialization of a saved `ClipboardManager`: the entry array and a
non-negative capacity (`usize`). -/
def loadManager : Json → Option (List ClipboardEntry × Nat)
  | .jobj fields =>
    match fields.lookup "entries", fields.lookup "max_entries" with
    | some (.jarr js), some (.jnum n) =>
      match decodeEntryList js with
      | some es => if 0 ≤ n then some (es, n.toNat) else none
      | none => none
    | _, _ => none
  | _ => none

/-- `ClipboardManager::new`: start from the default state and, when the
saved file exists and parses (`file = some j` with `loadManager j`
succeeding), take over its entries and capacity; on a missing or corrupt
file keep the defaults. -/
def new_from_file (file : Option Json) : ClipboardManager :=
  match file with
  | none => defaultManager
  | some j =>
    match loadManager j with
    | some (es, n) => { defaultManager with entries := es, max_entries := n }
    | none => defaultManager

/-- A state whose sole entry is pinned, with capacity 1 (the pin-exemption
scenario of the spec). -/
def pinnedSoleState : ClipboardManager :=
  { defaultManager with
      entries := [{ content := "old", timestamp := 0, pinned := true }],
      max_entries := 1 }

/-- A state with eleven non-pinned entries, within the default capacity of
50 but over the minimum settable capacity of 10. -/
def elevenEntryState : ClipboardManager :=
  { defaultManager with
      entries := (List.range 11).map
        (fun k => { content := toString k, timestamp := 0, pinned := false }) }

/-- A state whose last-seen clipboard value is the non-empty string "x". -/
def watcherState : ClipboardManager :=
  { defaultManager with current_clipboard := "x" }

/-- A state with three entries, the middle one pinned, used to exercise
in-range `remove_entry` and `toggle_pin`. -/
def threeEntryState : ClipboardManager :=
  { defaultManager with
      entries := [{ content := "a", timestamp := 0, pinned := false },
                  { content := "b", timestamp := 1, pinned := true },
                  { content := "c", timestamp := 2, pinned := false }] }

/-! ## Helper lemmas -/

/-- `togglePinList` never changes the number of entries. -/
theorem togglePinList_length (es : List ClipboardEntry) (i : Nat) :
    (togglePinList es i).length = es.length := by
  induction es generalizing i with
  | nil => rfl
  | cons e es ih =>
    cases i with
    | zero => rfl
    | succ n => simpa [togglePinList] using ih n

/-- Characterization of `togglePinList` at an in-range index: the entry at
`i` has its pin flag flipped, everything else is untouched. -/
theorem togglePinList_eq (es : List ClipboardEntry) (i : Nat) (h : i < es.length) :
    togglePinList es i =
      es.take i ++
        ({ es.get ⟨i, h⟩ with pinned := !(es.get ⟨i, h⟩).pinned } :: es.drop (i + 1)) := by
  induction es generalizing i with
  | nil => simp at h
  | cons e es ih =>
    cases i with
    | zero => simp [togglePinList]
    | succ n =>
      simp only [togglePinList, List.take_succ_cons, List.drop_succ_cons, List.cons_append,
        List.cons.injEq, true_and]
      exact ih n (by simpa using h)

/-- Every index produced by the eviction scan over `enumFrom n es` lies
below `n + es.length`. -/
theorem idx_lt_of_mem_fst_filter (es : List ClipboardEntry) (n idx : Nat)
    (h : idx ∈ ((es.enumFrom n).filter (fun q => !q.2.pinned)).map Prod.fst) :
    idx < n + es.length := by
  induction es generalizing n with
  | nil => simp [List.enumFrom] at h
  | cons e es ih =>
    simp only [List.enumFrom_cons, List.filter_cons] at h
    by_cases hp : (!e.pinned) = true
    · rw [if_pos hp] at h
      simp only [List.map_cons, List.mem_cons] at h
      rcases h with h | h
      · subst h; simp [Nat.lt_add_of_pos_right]
      · have := ih (n + 1) h
        simp only [List.length_cons]
        omega
    · rw [if_neg hp] at h
      have := ih (n + 1) h
      simp only [List.length_cons]
      omega

/-- The index chosen by the eviction step is in range. -/
theorem lastUnpinnedIdx_lt (es : List ClipboardEntry) (idx : Nat)
    (h : lastUnpinnedIdx es = some idx) : idx < es.length := by
  have hmem := List.mem_of_getLast?_eq_some h
  simpa using idx_lt_of_mem_fst_filter es 0 idx (by simpa [List.enum_eq_enumFrom] using hmem)

/-- If the eviction scan finds no index, every entry is pinned. -/
theorem all_pinned_of_lastUnpinnedIdx_none (es : List ClipboardEntry)
    (h : lastUnpinnedIdx es = none) : ∀ e ∈ es, e.pinned = true := by
  intro e he
  unfold lastUnpinnedIdx at h
  rw [List.getLast?_eq_none_iff, List.map_eq_nil_iff, List.filter_eq_nil_iff] at h
  have : e ∈ (es.enumFrom 0).map Prod.snd := by
    rw [List.enumFrom_map_snd]; exact he
  rcases List.mem_map.mp this with ⟨q, hq, rfl⟩
  have := h q (by simpa [List.enum_eq_enumFrom] using hq)
  simpa using this

/-- The eviction loop, run with enough fuel, ends within capacity or with
every remaining entry pinned. -/
theorem evictFuel_bound (fuel max : Nat) (es : List ClipboardEntry)
    (hfuel : es.length ≤ fuel) :
    (evictFuel fuel max es).length ≤ max ∨
      ∀ e ∈ evictFuel fuel max es, e.pinned = true := by
  induction fuel generalizing es with
  | zero =>
    interval_cases h : es.length
    · left; simp [evictFuel]; omega
  | succ fuel ih =>
    by_cases hlen : es.length > max
    · cases hidx : lastUnpinnedIdx es with
      | some idx =>
        have hlt := lastUnpinnedIdx_lt es idx hidx
        have herase : (es.eraseIdx idx).length = es.length - 1 :=
          List.length_eraseIdx_of_lt hlt
        have : (es.eraseIdx idx).length ≤ fuel := by omega
        have hres := ih (es.eraseIdx idx) this
        simpa [evictFuel, if_pos hlen, hidx] using hres
      | none =>
        right
        intro e he
        exact all_pinned_of_lastUnpinnedIdx_none es hidx e
          (by simpa [evictFuel, if_pos hlen, hidx] using he)
    · left
      simp only [evictFuel, if_neg hlen]
      omega

/-- `add_entry` never changes the last-seen clipboard value. -/
theorem add_entry_current (t : Int) (c : String) (m : ClipboardManager) :
    (add_entry t c m).current_clipboard = m.current_clipboard := by
  unfold add_entry
  split <;> rfl

/-- `add_entry` never changes the capacity. -/
theorem add_entry_max (t : Int) (c : String) (m : ClipboardManager) :
    (add_entry t c m).max_entries = m.max_entries := by
  unfold add_entry
  split <;> rfl

/-- Single-byte characters contribute exactly one byte each. -/
theorem sum_utf8Size_ascii (l : List Char) (h : ∀ c ∈ l, c.utf8Size = 1) :
    (l.map Char.utf8Size).sum = l.length := by
  induction l with
  | nil => rfl
  | cons c cs ih =>
    simp only [List.mem_cons, forall_eq_or_imp] at h
    simp [h.1, ih h.2, Nat.add_comm]

/-- For single-byte content, `String::len` agrees with the character
count. -/
theorem byteLen_ascii (s : String) (h : ∀ c ∈ s.data, c.utf8Size = 1) :
    byteLen s = s.length := by
  unfold byteLen
  exact sum_utf8Size_ascii s.data h

/-- For single-byte content, the Rust byte slice `&s[..n]` is ordinary
`take n` whenever `n` is within the length. -/
theorem takeBytes_ascii (l : List Char) (n : Nat) (h : ∀ c ∈ l, c.utf8Size = 1)
    (hn : n ≤ l.length) : takeBytes l n = some (l.take n) := by
  induction n generalizing l with
  | zero => cases l <;> rfl
  | succ n ih =>
    cases l with
    | nil => simp at hn
    | cons c cs =>
      simp only [List.mem_cons, forall_eq_or_imp] at h
      simp only [takeBytes, h.1, if_pos (by omega : 1 ≤ n + 1)]
      rw [show n + 1 - 1 = n from rfl, ih cs h.2 (by simpa using hn)]
      rfl

/-! ## Claim theorems -/

/-- C1, counterexample: with `max_entries = 1` and the sole entry pinned,
`add("new")` does NOT yield a history of length 2 — the claimed pin
exemption fails on this code. -/
theorem pin_exemption_claim_false :
    ¬ (add_entry 1 "new" pinnedSoleState).entries.length = 2 := by
  decide

/-- C1, amended: with `max_entries = 1` and the sole entry pinned,
`add("new")` yields a history of length 1 holding only the pinned
original — the new entry is inserted at the front and then immediately
evicted, because the eviction step removes the last (oldest) non-pinned
entry and the new entry is the only non-pinned one. -/
theorem pin_exemption_amended :
    (add_entry 1 "new" pinnedSoleState).entries =
      [{ content := "old", timestamp := 0, pinned := true }] := by
  decide

/-- C2: `preview` is not total — on content of 26 two-byte characters
(52 bytes, so over the 50-byte threshold) the slice `&content[..47]`
falls inside a character and panics, modelled here by `none`. -/
theorem preview_panics_on_multibyte :
    preview (String.mk (List.replicate 26 'é')) = none ∧
      byteLen (String.mk (List.replicate 26 'é')) = 52 := by
  constructor <;> decide

/-- C4: from an empty history with capacity 2, adding "a", "b", "c" in
order leaves exactly ["c", "b"] — the oldest non-pinned entry is evicted
first. -/
theorem capacity_eviction_order :
    (add_entry 3 "c" (add_entry 2 "b" (add_entry 1 "a"
        { defaultManager with max_entries := 2 }))).entries.map ClipboardEntry.content
      = ["c", "b"] := by
  decide

/-- C8, counterexample: `preview` does not return content of at most 50
characters unchanged — "a" followed by 25 two-byte characters is 26
characters but 51 bytes, so the code truncates it. -/
theorem preview_char_formula_false :
    (String.mk ('a' :: List.replicate 25 'é')).length ≤ 50 ∧
      ¬ preview (String.mk ('a' :: List.replicate 25 'é')) =
          some (String.mk ('a' :: List.replicate 25 'é')) := by
  constructor <;> decide

/-- C8, amended: `preview`'s thresholds are measured in UTF-8 bytes, not
characters.  For single-byte (ASCII) content the claimed formula holds:
content over 50 characters becomes its first 47 characters plus "..."
(total length 50), content of at most 50 characters is returned
unchanged. -/
theorem preview_byte_formula_ascii (s : String) (h : ∀ c ∈ s.data, c.utf8Size = 1) :
    (s.length ≤ 50 → preview s = some s) ∧
    (50 < s.length →
      preview s = some (String.mk (s.data.take 47) ++ "...") ∧
        (String.mk (s.data.take 47) ++ "...").length = 50) := by
  have hb : byteLen s = s.length := byteLen_ascii s h
  constructor
  · intro hle
    unfold preview
    rw [if_neg (by omega)]
  · intro hgt
    have hlen : s.length = s.data.length := rfl
    constructor
    · unfold preview
      rw [if_pos (by omega), takeBytes_ascii s.data 47 h (by omega)]
      rfl
    · have h1 : (String.mk (s.data.take 47) ++ "...").length =
          (s.data.take 47 ++ "...".data).length := rfl
      have h2 : "...".data.length = 3 := rfl
      rw [h1, List.length_append, List.length_take, h2]
      omega

/-- C8 witness: the amended formula evaluated on a 60-character and on a
10-character ASCII string. -/
theorem preview_byte_formula_ascii_witness :
    ((String.mk (List.replicate 60 'x')).length ≤ 50 →
        preview (String.mk (List.replicate 60 'x')) = some (String.mk (List.replicate 60 'x'))) ∧
      (50 < (String.mk (List.replicate 60 'x')).length →
        preview (String.mk (List.replicate 60 'x')) =
            some (String.mk ((String.mk (List.replicate 60 'x')).data.take 47) ++ "...") ∧
          (String.mk ((String.mk (List.replicate 60 'x')).data.take 47) ++ "...").length = 50) :=
  preview_byte_formula_ascii (String.mk (List.replicate 60 'x')) (by decide)

/-- C10: `copy_to_clipboard` leaves the entry list and the capacity
untouched whether or not the OS write succeeds; it records the copied
content as the last-seen clipboard value exactly on success (so that the
next `check_clipboard` poll of the same value is a no-op), sets the
status message, and returns the success flag. -/
theorem copy_to_clipboard_frame (ok : Bool) (content : String) (m : ClipboardManager) (t : Int) :
    (copy_to_clipboard ok content m).2.entries = m.entries ∧
    (copy_to_clipboard ok content m).2.max_entries = m.max_entries ∧
    (copy_to_clipboard ok content m).2.current_clipboard =
      (if ok then content else m.current_clipboard) ∧
    (copy_to_clipboard ok content m).2.status_message =
      some (if ok then "Copied to clipboard" else "Failed to copy to clipboard") ∧
    (copy_to_clipboard ok content m).1 = ok ∧
    check_clipboard t (some content) (copy_to_clipboard true content m).2 =
      (copy_to_clipboard true content m).2 := by
  cases ok <;>
    simp [copy_to_clipboard, check_clipboard, bne_self_eq_false]

/-- C5: `add_entry` is a strict no-op when the content trims to empty or
duplicates an existing entry; consequently adding the same non-blank
content twice to a fresh manager leaves exactly one entry, and adding ""
then "   " leaves any state untouched. -/
theorem add_noop_conditions (m : ClipboardManager) (t t1 t2 : Int) (c x : String)
    (hc : (rustTrim c).isEmpty = true ∨ m.entries.any (fun e => e.content == c) = true)
    (hx : (rustTrim x).isEmpty = false) :
    add_entry t c m = m ∧
    (add_entry t2 x (add_entry t1 x defaultManager)).entries.length = 1 ∧
    add_entry t2 "   " (add_entry t1 "" m) = m := by
  have noop : ∀ (s : Int) (d : String) (w : ClipboardManager),
      (rustTrim d).isEmpty = true ∨ w.entries.any (fun e => e.content == d) = true →
      add_entry s d w = w := by
    intro s d w h
    rcases h with h | h <;> simp [add_entry, h]
  refine ⟨noop t c m hc, ?_, ?_⟩
  · have h1 : add_entry t1 x defaultManager =
        { defaultManager with
            entries := [{ content := x, timestamp := t1, pinned := false }] } := by
      simp [add_entry, hx, defaultManager, evict, evictFuel]
    rw [h1]
    have h2 : add_entry t2 x
        { defaultManager with
            entries := [{ content := x, timestamp := t1, pinned := false }] } =
        { defaultManager with
            entries := [{ content := x, timestamp := t1, pinned := false }] } := by
      apply noop
      right
      simp
    rw [h2]
    rfl
  · rw [noop t1 "" m (Or.inl (by decide)), noop t2 "   " m (Or.inl (by decide))]

/-- C5 witness: the no-op conditions evaluated on a concrete state with a
duplicate, a fresh double add, and blank adds. -/
theorem add_noop_conditions_witness :
    ((rustTrim "old").isEmpty = true ∨
      pinnedSoleState.entries.any (fun e => e.content == "old") = true) ∧
    (rustTrim "hello").isEmpty = false ∧
    (add_entry 0 "old" pinnedSoleState = pinnedSoleState ∧
      (add_entry 1 "hello" (add_entry 0 "hello" defaultManager)).entries.length = 1 ∧
      add_entry 1 "   " (add_entry 0 "" pinnedSoleState) = pinnedSoleState) :=
  ⟨by decide, by decide,
    add_noop_conditions pinnedSoleState 0 0 1 "old" "hello" (by decide) (by decide)⟩

/-- C7, counterexample: a successful read of the empty clipboard value is
ignored without updating `current_clipboard`, so after that read the
watcher's last-seen value does not equal the read value, contrary to the
claim's "after the first successful read the watcher's last_seen equals
the value". -/
theorem watcher_last_seen_claim_false :
    check_clipboard 0 (some "") watcherState = watcherState ∧
      ¬ (check_clipboard 0 (some "") watcherState).current_clipboard = "" := by
  constructor <;> decide

/-- C7, amended: for a non-empty clipboard value, one poll records it as
`current_clipboard`; and for every value, polling a second time with the
same value leaves the whole state unchanged, so `add_entry` is called at
most once per value. -/
theorem watcher_idempotent_amended (m : ClipboardManager) (t1 t2 : Int) (v : String) :
    (v ≠ "" → (check_clipboard t1 (some v) m).current_clipboard = v) ∧
    check_clipboard t2 (some v) (check_clipboard t1 (some v) m) =
      check_clipboard t1 (some v) m := by
  have hcur : ∀ t : Int, v ≠ "" → (check_clipboard t (some v) m).current_clipboard = v := by
    intro t hv
    by_cases hv2 : v = m.current_clipboard
    · have hcond : (!v.isEmpty && v != m.current_clipboard) = false := by
        simp [hv2]
      simp only [check_clipboard, hcond, Bool.false_eq_true, if_false]
      exact hv2.symm
    · have hcond : (!v.isEmpty && v != m.current_clipboard) = true := by
        have : v.isEmpty = false := by
          cases hvE : v.isEmpty
          · rfl
          · exact absurd ((String.isEmpty_iff v).mp hvE) hv
        simp [this, hv2]
      simp only [check_clipboard, hcond, if_true]
      rw [add_entry_current]
  refine ⟨hcur t1, ?_⟩
  by_cases hv : v = ""
  · subst hv
    have hstep : ∀ (t : Int) (w : ClipboardManager), check_clipboard t (some "") w = w := by
      intro t w
      have he : (!String.isEmpty "") = false := rfl
      simp [check_clipboard, he]
    rw [hstep t1 m, hstep t2 m]
  · have h1 := hcur t1 hv
    obtain ⟨M1, hM⟩ : ∃ M1, check_clipboard t1 (some v) m = M1 := ⟨_, rfl⟩
    rw [hM] at h1 ⊢
    have hcond : (!v.isEmpty && v != M1.current_clipboard) = false := by
      rw [h1]
      simp
    simp [check_clipboard, hcond]

/-- C7 witness: the amended watcher property on a fresh manager and the
value "abc". -/
theorem watcher_idempotent_amended_witness :
    (check_clipboard 0 (some "abc") defaultManager).current_clipboard = "abc" ∧
      check_clipboard 1 (some "abc") (check_clipboard 0 (some "abc") defaultManager) =
        check_clipboard 0 (some "abc") defaultManager :=
  ⟨(watcher_idempotent_amended defaultManager 0 1 "abc").1 (by decide),
    (watcher_idempotent_amended defaultManager 0 1 "abc").2⟩

/-- C9: out-of-range indices make `remove_entry` and `toggle_pin` silent
no-ops leaving the state literally unchanged; in-range, `remove_entry`
deletes exactly the addressed entry and `toggle_pin` flips exactly the
addressed entry's pin flag, both leaving the capacity unchanged. -/
theorem stale_index_tolerance (m : ClipboardManager) (i : Nat) :
    (m.entries.length ≤ i → remove_entry i m = m ∧ toggle_pin i m = m) ∧
    (∀ h : i < m.entries.length,
      (remove_entry i m).entries = m.entries.take i ++ m.entries.drop (i + 1) ∧
      (remove_entry i m).max_entries = m.max_entries ∧
      (toggle_pin i m).entries =
        m.entries.take i ++
          ({ m.entries.get ⟨i, h⟩ with pinned := !(m.entries.get ⟨i, h⟩).pinned }
            :: m.entries.drop (i + 1)) ∧
      (toggle_pin i m).max_entries = m.max_entries) := by
  constructor
  · intro hle
    constructor
    · unfold remove_entry
      rw [if_neg (by omega)]
    · unfold toggle_pin
      rw [dif_neg (by omega)]
  · intro h
    refine ⟨?_, ?_, ?_, ?_⟩
    · simp [remove_entry, if_pos h, List.eraseIdx_eq_take_drop_succ]
    · simp [remove_entry, if_pos h]
    · simp only [toggle_pin, dif_pos h]
      exact togglePinList_eq m.entries i h
    · simp only [toggle_pin, dif_pos h]

/-- C9 witness: stale and valid indices exercised on a three-entry
state. -/
theorem stale_index_tolerance_witness :
    threeEntryState.entries.length ≤ 5 ∧
    remove_entry 5 threeEntryState = threeEntryState ∧
    toggle_pin 5 threeEntryState = threeEntryState ∧
    (remove_entry 1 threeEntryState).entries =
      threeEntryState.entries.take 1 ++ threeEntryState.entries.drop (1 + 1) ∧
    (toggle_pin 1 threeEntryState).max_entries = threeEntryState.max_entries := by
  obtain ⟨h1, h2⟩ := (stale_index_tolerance threeEntryState 5).1 (by decide)
  exact ⟨by decide, h1, h2,
    ((stale_index_tolerance threeEntryState 1).2 (by decide)).1,
    ((stale_index_tolerance threeEntryState 1).2 (by decide)).2.2.2⟩

/-- C3, counterexample: the invariant is NOT preserved by `set_capacity` —
lowering the capacity of a state with eleven non-pinned entries to 10
leaves eleven entries with a non-pinned one present, violating
`len(entries) <= max_entries`. -/
theorem invariant_not_preserved_by_set_capacity :
    Inv elevenEntryState ∧ ¬ Inv (set_capacity 10 elevenEntryState) := by
  constructor <;> decide

/-- C3, amended: the invariant is preserved by `add_entry` and
`remove_entry`, established outright by `clear_unpinned`, and preserved by
`toggle_pin` from any within-capacity state; `set_capacity` does not
preserve it, since it changes the capacity without retroactive
eviction (and unpinning via `toggle_pin` in an over-capacity all-pinned
state can also break it). -/
theorem invariant_preserved_amended (m : ClipboardManager) (t : Int) (c : String)
    (i j : Nat) (h : Inv m) :
    Inv (add_entry t c m) ∧ Inv (remove_entry i m) ∧ Inv (clear_unpinned m) ∧
      (m.entries.length ≤ m.max_entries → Inv (toggle_pin j m)) := by
  refine ⟨?_, ?_, ?_, ?_⟩
  · unfold add_entry
    split
    · exact h
    · intro hex
      rcases evictFuel_bound
          ({ content := c, timestamp := t, pinned := false } :: m.entries).length
          m.max_entries
          ({ content := c, timestamp := t, pinned := false } :: m.entries)
          (le_refl _) with hle | hall
      · exact hle
      · exfalso
        rcases hex with ⟨e, he, hp⟩
        rw [hall e he] at hp
        cases hp
  · unfold remove_entry
    split
    · intro hex
      rcases hex with ⟨e, he, hp⟩
      have hem : e ∈ m.entries := List.mem_of_mem_eraseIdx he
      have hlen : (m.entries.eraseIdx i).length ≤ m.entries.length :=
        List.length_eraseIdx_le _ _
      have := h ⟨e, hem, hp⟩
      simp only at this ⊢
      omega
    · exact h
  · intro hex
    exfalso
    rcases hex with ⟨e, he, hp⟩
    have hpin := List.of_mem_filter he
    simp only [hp] at hpin
    cases hpin
  · intro hcap
    unfold toggle_pin
    split
    · intro _
      simpa [togglePinList_length] using hcap
    · intro _
      exact hcap

/-- C3 witness: the amended preservation statement evaluated on the
three-entry state. -/
theorem invariant_preserved_amended_witness :
    Inv threeEntryState ∧
      (Inv (add_entry 5 "d" threeEntryState) ∧ Inv (remove_entry 0 threeEntryState) ∧
        Inv (clear_unpinned threeEntryState) ∧
        (threeEntryState.entries.length ≤ threeEntryState.max_entries →
          Inv (toggle_pin 1 threeEntryState))) :=
  ⟨by decide, invariant_preserved_amended threeEntryState 5 "d" 0 1 (by decide)⟩

/-- C6: saving a state and loading it in a fresh instance restores the
entry list exactly — same contents, timestamps, pin flags and order — and
the capacity. -/
theorem persistence_round_trip (m : ClipboardManager) :
    (new_from_file (some (save_data m))).entries = m.entries ∧
      (new_from_file (some (save_data m))).max_entries = m.max_entries := by
  have hentries : ∀ es : List ClipboardEntry,
      decodeEntryList (es.map encodeEntry) = some es := by
    intro es
    induction es with
    | nil => rfl
    | cons e es ih =>
      have he : decodeEntry (encodeEntry e) = some e := rfl
      simp [decodeEntryList, he, ih]
  have hload : loadManager (save_data m) = some (m.entries, m.max_entries) := by
    unfold loadManager save_data
    simp [List.lookup, hentries]
  simp [new_from_file, hload]

end Klippy
